import Mathlib

/-!
Verification of the ledger-history / consensus-reconciliation subsystem
(`LedgerHistory.cpp`) and the peer message framing (`Message.cpp`) of the
rippled repository, via a shallow embedding in Lean.

Hashes (`uint256`, `LedgerHash`) are modelled as `Nat`; a value of `0`
models a zero hash.  Serialized byte strings are modelled as `List Nat`.
Opaque `Json::Value` payloads are modelled as `Nat` tokens.  The embedding
follows release-build semantics of the C++: `assert(...)` statements are
compiled out and have no effect, while `LogicError(...)` always aborts
(modelled with `Except`).
-/

namespace Rippled

/-- Pointwise update of a partial map `Nat → Option α`. -/
def mupd {α : Type} (f : Nat → Option α) (k : Nat) (v : α) : Nat → Option α :=
  fun x => if x = k then some v else f x

/-- Parsed transaction metadata (`TxMeta`): result code (`getResultTER`),
applied index (`getIndex`), affected-node list (`getNodes`, nodes kept
opaque as `Nat` identifiers). -/
structure TxMeta where
  resultTER : Int
  index : Nat
  nodes : List Nat
deriving DecidableEq, Repr

/-- One leaf of a transaction `SHAMap` (`SHAMapItem`): the transaction key,
the serialized bytes of the item (`slice()`), and the parsed metadata
(`txRead(key).second`, absent when the item carries no metadata). -/
structure TxItem where
  key : Nat
  slice : List Nat
  meta : Option TxMeta
deriving DecidableEq, Repr

/-- The header fields of a ledger (`LedgerInfo`). -/
structure LedgerInfo where
  seq : Nat
  hash : Nat
  parentHash : Nat
  closeTime : Nat
deriving DecidableEq, Repr

/-- An immutable ledger snapshot, as read by `LedgerHistory`:
`info()`, `stateMap().getHash()`, `isImmutable()` and the leaves of
`txMap()` (unordered). -/
structure Ledger where
  info : LedgerInfo
  stateHash : Nat
  isImmutable : Bool
  txMap : List TxItem
deriving DecidableEq, Repr

/-- Read the metadata stored for transaction `tx` (`ReadView::txRead`). -/
def Ledger.txRead (l : Ledger) (tx : Nat) : Option TxMeta :=
  match l.txMap.find? (fun item => item.key == tx) with
  | some item => item.meta
  | none => none

/-- A `cv_entry` of the `consensusValidated_` cache: the per-sequence
record of the built and validated sides. -/
structure CVEntry where
  built : Option Nat := none
  builtConsensusHash : Option Nat := none
  consensus : Option Nat := none
  validated : Option Nat := none
  validatedConsensusHash : Option Nat := none
deriving DecidableEq, Repr

/-- The side reported missing by `log_one` (the `msg` argument:
the valid or the built ledger is missing the transaction). -/
inductive Side where
  | valid
  | built
deriving DecidableEq, Repr

/-- Classification emitted by `log_metadata_difference`. -/
inductive MetaDiffLog where
  | noApparent
  | resultIndex
  | resultOnly
  | indexOnly
  | resultIndexNodes
  | resultNodes
  | indexNodes
  | nodesOnly
  | builtHasNone
  | validHasNone
deriving DecidableEq, Repr

/-- Abstraction of the structured log lines emitted during mismatch
handling; each constructor corresponds to one `JLOG` site of
`LedgerHistory::handleMismatch` and its helpers. -/
inductive LogEvent where
  /-- The line "MISMATCH cannot be analyzed": a ledger hash did not resolve. -/
  | unanalyzable (built valid : Nat)
  /-- The debug dump "Mismatch on seq: Built/Valid/Consensus". -/
  | mismatchHeader (seq : Nat)
  /-- The line "MISMATCH on prior ledger" (synchronization divergence). -/
  | priorLedger
  /-- The line "MISMATCH on close time" (Byzantine-failure signal). -/
  | closeTimeLog
  /-- The line "MISMATCH on consensus transaction set" (hashes differed). -/
  | consensusDiffer (b v : Nat)
  /-- The line "MISMATCH with same consensus transaction set". -/
  | consensusSame (h : Nat)
  /-- The line "MISMATCH with same N transactions". -/
  | sameTx (n : Nat)
  /-- The line "MISMATCH with B built and V valid transactions." -/
  | diffTx (b v : Nat)
  /-- The full JSON dump of the built ledger. -/
  | builtDump
  /-- The full JSON dump of the valid ledger. -/
  | validDump
  /-- Output of `log_one`: the given side is missing transaction `key`; carries the
  metadata read from the ledger that has the transaction, if any. -/
  | missingTx (who : Side) (key : Nat) (meta : Option TxMeta)
  /-- Outcome of `log_metadata_difference` for transaction `key`. -/
  | metaDiff (key : Nat) (c : MetaDiffLog)
deriving DecidableEq, Repr

/-- A recorded invocation of the mismatch analyzer
(`LedgerHistory::handleMismatch`), with the arguments it received. -/
structure MismatchCall where
  built : Nat
  valid : Nat
  builtConsensusHash : Option Nat
  validatedConsensusHash : Option Nat
  consensus : Nat
deriving DecidableEq, Repr

/-- The mutable state of a `LedgerHistory` object: the ledger cache
(`ledgerCache_`, keyed by hash), the sequence index (`mLedgersByIndex`),
the consensus tracker (`consensusValidated_`, keyed by sequence) and the
mismatch counter.  Cache eviction is timer-driven in the source and never
happens inside the operations modelled here. -/
structure HState where
  ledgerCache : Nat → Option Ledger
  ledgersByIndex : Nat → Option Nat
  cv : Nat → Option CVEntry
  mismatchCounter : Nat

/-- A `LedgerHistory` whose caches and index are all empty. -/
def initialHState : HState :=
  { ledgerCache := fun _ => none
    ledgersByIndex := fun _ => none
    cv := fun _ => none
    mismatchCounter := 0 }

/-- Model of `TaggedCache::retrieve_or_insert` on the ledger cache: if an entry for
`key` exists it is returned (the candidate is discarded); otherwise the
candidate is inserted and returned. -/
def retrieveOrInsert (st : HState) (key : Nat) (candidate : Ledger) :
    HState × Ledger :=
  match st.ledgerCache key with
  | some existing => (st, existing)
  | none => ({ st with ledgerCache := mupd st.ledgerCache key candidate }, candidate)

/-- Model of `LedgerHistory::insert` (release semantics): a mutable ledger aborts
via `LogicError`; the `assert` on the state-map hash is compiled out.
The ledger is stored in the cache under its hash (`insert_or_assign`,
returning whether an entry already existed) and, when `validated`, its
sequence is bound to its hash in the index. -/
def insertLedger (st : HState) (ledger : Ledger) (validated : Bool) :
    Except String (Bool × HState) :=
  if !ledger.isImmutable then
    .error "mutable Ledger in insert"
  else
    let alreadyHad := (st.ledgerCache ledger.info.hash).isSome
    let st1 := { st with ledgerCache := mupd st.ledgerCache ledger.info.hash ledger }
    let st2 :=
      if validated then
        { st1 with ledgersByIndex := mupd st1.ledgersByIndex ledger.info.seq ledger.info.hash }
      else st1
    .ok (alreadyHad, st2)

/-- Model of `LedgerHistory::getLedgerByHash`: cache lookup, then the external
loader (`loadByHash`); a loaded ledger is canonicalized into the cache
via `retrieve_or_insert` keyed on its own hash. -/
def getLedgerByHashOp (loadByHash : Nat → Option Ledger) (st : HState)
    (hash : Nat) : HState × Option Ledger :=
  match st.ledgerCache hash with
  | some l => (st, some l)
  | none =>
    match loadByHash hash with
    | none => (st, none)
    | some ret =>
      let p := retrieveOrInsert st ret.info.hash ret
      (p.1, some p.2)

/-- Model of `LedgerHistory::getLedgerBySeq` (release semantics; the two `assert`s
are compiled out): consult the index, delegating to `getLedgerByHash` on
a hit; on an index miss, invoke the external loader by sequence, insert
the result into the cache, bind the loaded ledger's own sequence to its
hash in the index, and return the ledger only if its sequence matches the
request. -/
def getLedgerBySeqOp (loadByHash loadByIndex : Nat → Option Ledger)
    (st : HState) (index : Nat) : HState × Option Ledger :=
  match st.ledgersByIndex index with
  | some hash => getLedgerByHashOp loadByHash st hash
  | none =>
    match loadByIndex index with
    | none => (st, none)
    | some ret =>
      let p := retrieveOrInsert st ret.info.hash ret
      let retc := p.2
      let st2 := { p.1 with
        ledgersByIndex := mupd p.1.ledgersByIndex retc.info.seq retc.info.hash }
      (st2, if retc.info.seq = index then some retc else none)

/-- Model of `LedgerHistory::getLedgerHash`: index lookup (a missing entry is the
zero hash in the source; modelled as `none`). -/
def getLedgerHashOp (st : HState) (index : Nat) : Option Nat :=
  st.ledgersByIndex index

/-- Model of `LedgerHistory::fixIndex`: if an entry for the index exists and
differs from the given hash, overwrite it and report `false`; otherwise
report `true` and change nothing. -/
def fixIndexOp (st : HState) (ledgerIndex : Nat) (ledgerHash : Nat) :
    HState × Bool :=
  match st.ledgersByIndex ledgerIndex with
  | some h =>
    if h ≠ ledgerHash then
      ({ st with ledgersByIndex := mupd st.ledgersByIndex ledgerIndex ledgerHash }, false)
    else (st, true)
  | none => (st, true)

/-- The comparison used by the `leaves` helper of `handleMismatch`:
ascending by transaction key. -/
def keyLE (a b : TxItem) : Prop := a.key ≤ b.key

instance : DecidableRel keyLE := fun a b => inferInstanceAs (Decidable (a.key ≤ b.key))

instance : IsTotal TxItem keyLE := ⟨fun a b => Nat.le_total a.key b.key⟩

instance : IsTrans TxItem keyLE := ⟨fun _ _ _ => Nat.le_trans⟩

/-- The `leaves` helper of `handleMismatch`: the leaves of a transaction
`SHAMap`, sorted ascending by key (`std::sort` with `lhs->key() <
rhs->key()`; on key-unique leaf lists the sorted result is the unique
ascending permutation, so any sort is an exact model). -/
def sortByKey (l : List TxItem) : List TxItem := l.insertionSort keyLE

/-- Model of `log_one`: record that side `who` of the comparison is missing
transaction `tx`, reading the metadata from the ledger that has it. -/
def log_one (ledger : Ledger) (tx : Nat) (who : Side) : LogEvent :=
  .missingTx who tx (ledger.txRead tx)

/-- Model of `log_metadata_difference`: read both sides metadata for `tx` and
emit the classification log lines (as a list; the source's fall-through
with no log is the empty list, and is unreachable when both sides parse).
The source `assert`s that at least one side has metadata; the both-absent
case is modelled as no log. -/
def log_metadata_difference (builtLedger validLedger : Ledger) (tx : Nat) :
    List MetaDiffLog :=
  match validLedger.txRead tx, builtLedger.txRead tx with
  | some validMeta, some builtMeta =>
    let result_diff := validMeta.resultTER ≠ builtMeta.resultTER
    let index_diff := validMeta.index ≠ builtMeta.index
    let nodes_diff := validMeta.nodes ≠ builtMeta.nodes
    if ¬result_diff ∧ ¬index_diff ∧ ¬nodes_diff then [.noApparent]
    else if ¬nodes_diff then
      if result_diff ∧ index_diff then [.resultIndex]
      else if result_diff then [.resultOnly]
      else if index_diff then [.indexOnly]
      else []
    else
      if result_diff ∧ index_diff then [.resultIndexNodes]
      else if result_diff then [.resultNodes]
      else if index_diff then [.indexNodes]
      else [.nodesOnly]
  | some _, none => [.builtHasNone]
  | none, some _ => [.validHasNone]
  | none, none => []

/-- The merge-join loop of `handleMismatch` over the two sorted leaf
lists: a smaller built key is logged as missing from the valid ledger, a
smaller valid key as missing from the built ledger; equal keys with equal
slices log nothing, equal keys with different slices go to
`log_metadata_difference`.  The two trailing loops drain the leftovers. -/
def mergeDiff (builtLedger validLedger : Ledger) :
    List TxItem → List TxItem → List LogEvent
  | b :: bs, v :: vs =>
    if b.key < v.key then
      log_one builtLedger b.key .valid :: mergeDiff builtLedger validLedger bs (v :: vs)
    else if v.key < b.key then
      log_one validLedger v.key .built :: mergeDiff builtLedger validLedger (b :: bs) vs
    else
      (if b.slice ≠ v.slice then
        (log_metadata_difference builtLedger validLedger b.key).map
          (LogEvent.metaDiff b.key)
      else []) ++ mergeDiff builtLedger validLedger bs vs
  | bs, [] => bs.map (fun b => log_one builtLedger b.key .valid)
  | [], vs => vs.map (fun v => log_one validLedger v.key .built)
termination_by bs vs => bs.length + vs.length

/-- The body of `handleMismatch` after both ledgers resolved: the debug
dump, then the ordered checks (parent hash, close time, consensus-set
hashes), then the transaction-count log, the two ledger dumps and the
per-transaction merge-join. -/
def handleMismatchAnalyze (builtLedger validLedger : Ledger)
    (builtConsensusHash validatedConsensusHash : Option Nat) :
    List LogEvent :=
  LogEvent.mismatchHeader builtLedger.info.seq ::
  (if builtLedger.info.parentHash ≠ validLedger.info.parentHash then
    [.priorLedger]
  else if builtLedger.info.closeTime ≠ validLedger.info.closeTime then
    [.closeTimeLog]
  else
    (match builtConsensusHash, validatedConsensusHash with
     | some b, some v =>
       if b ≠ v then [.consensusDiffer b v] else [.consensusSame b]
     | _, _ => []) ++
    (let builtTx := sortByKey builtLedger.txMap
     let validTx := sortByKey validLedger.txMap
     (if builtTx = validTx then [.sameTx builtTx.length]
      else [.diffTx builtTx.length validTx.length]) ++
     [.builtDump, .validDump] ++
     mergeDiff builtLedger validLedger builtTx validTx))

/-- Model of `LedgerHistory::handleMismatch`: increment the mismatch counter
unconditionally, resolve both hashes through the cache-or-load path, and
either log the unanalyzable diagnostic or run the analysis. -/
def handleMismatchOp (loadByHash : Nat → Option Ledger) (st : HState)
    (built valid : Nat) (builtConsensusHash validatedConsensusHash : Option Nat)
    (consensus : Nat) : HState × List LogEvent :=
  let _ := consensus
  let st0 := { st with mismatchCounter := st.mismatchCounter + 1 }
  let p1 := getLedgerByHashOp loadByHash st0 built
  let p2 := getLedgerByHashOp loadByHash p1.1 valid
  match p1.2, p2.2 with
  | some builtLedger, some validLedger =>
    (p2.1, handleMismatchAnalyze builtLedger validLedger
      builtConsensusHash validatedConsensusHash)
  | _, _ => (p2.1, [.unanalyzable built valid])

/-- Model of `LedgerHistory::builtLedger`: get-or-create the tracker entry for the
ledger's sequence; if the validated side is already known and no built
side is recorded yet, either log a late match or invoke the mismatch
analyzer; then store the built hash, built consensus-set hash and
consensus metadata.  Returns the new state, the analyzer invocations made
and the log events emitted. -/
def builtLedgerOp (loadByHash : Nat → Option Ledger) (st : HState)
    (ledger : Ledger) (consensusHash : Nat) (consensus : Nat) :
    HState × List MismatchCall × List LogEvent :=
  let index := ledger.info.seq
  let hash := ledger.info.hash
  let entry := (st.cv index).getD {}
  let fire := entry.validated.isSome ∧ entry.built.isNone ∧ entry.validated ≠ some hash
  let step :=
    if fire then
      let p := handleMismatchOp loadByHash st hash (entry.validated.getD 0)
        (some consensusHash) entry.validatedConsensusHash consensus
      (p.1,
       [⟨hash, entry.validated.getD 0, some consensusHash,
         entry.validatedConsensusHash, consensus⟩],
       p.2)
    else (st, [], [])
  let entry' := { entry with
    built := some hash
    builtConsensusHash := some consensusHash
    consensus := some consensus }
  ({ step.1 with cv := mupd step.1.cv index entry' }, step.2.1, step.2.2)

/-- Model of `LedgerHistory::validatedLedger`: symmetric to `builtLedger`; if the
built side is already known, no validated side is recorded yet and the
hashes differ, invoke the mismatch analyzer (roles reversed, with the
stored consensus metadata); then store the validated hash and the
validated consensus-set hash (which may itself be absent). -/
def validatedLedgerOp (loadByHash : Nat → Option Ledger) (st : HState)
    (ledger : Ledger) (consensusHash : Option Nat) :
    HState × List MismatchCall × List LogEvent :=
  let index := ledger.info.seq
  let hash := ledger.info.hash
  let entry := (st.cv index).getD {}
  let fire := entry.built.isSome ∧ entry.validated.isNone ∧ entry.built ≠ some hash
  let step :=
    if fire then
      let p := handleMismatchOp loadByHash st (entry.built.getD 0) hash
        entry.builtConsensusHash consensusHash (entry.consensus.getD 0)
      (p.1,
       [⟨entry.built.getD 0, hash, entry.builtConsensusHash,
         consensusHash, entry.consensus.getD 0⟩],
       p.2)
    else (st, [], [])
  let entry' := { entry with
    validated := some hash
    validatedConsensusHash := consensusHash }
  ({ step.1 with cv := mupd step.1.cv index entry' }, step.2.1, step.2.2)

/-- An event entering the consensus tracker: a built-ledger event or a
validated-ledger event. -/
inductive CVEvent where
  | builtEv (ledger : Ledger) (consensusHash : Nat) (consensus : Nat)
  | validatedEv (ledger : Ledger) (consensusHash : Option Nat)
deriving Repr

/-- The sequence number an event is about. -/
def CVEvent.seq : CVEvent → Nat
  | .builtEv l _ _ => l.info.seq
  | .validatedEv l _ => l.info.seq

/-- Run one tracker event. -/
def stepCV (loadByHash : Nat → Option Ledger) (st : HState) :
    CVEvent → HState × List MismatchCall
  | .builtEv l ch c =>
    let p := builtLedgerOp loadByHash st l ch c
    (p.1, p.2.1)
  | .validatedEv l ch =>
    let p := validatedLedgerOp loadByHash st l ch
    (p.1, p.2.1)

/-- Run a sequential interleaving of tracker events, collecting every
mismatch-analyzer invocation in order. -/
def runCV (loadByHash : Nat → Option Ledger) (st : HState) :
    List CVEvent → HState × List MismatchCall
  | [] => (st, [])
  | e :: es =>
    let p := stepCV loadByHash st e
    let q := runCV loadByHash p.1 es
    (q.1, p.2 ++ q.2)

/-! ## Peer message framing (`Message.cpp`) -/

/-- Modelled from the spec: protocol message-type code `mtMANIFESTS`
(the codes live in the protobuf protocol definition, outside this
repository slice; the exact numeric values are irrelevant to the claims,
only their identity as a fixed allow-list). -/
def mtMANIFESTS : Nat := 2

/-- Modelled from the spec: protocol message-type code `mtENDPOINTS`. -/
def mtENDPOINTS : Nat := 15

/-- Modelled from the spec: protocol message-type code `mtTRANSACTION`. -/
def mtTRANSACTION : Nat := 30

/-- Modelled from the spec: protocol message-type code `mtGET_LEDGER`. -/
def mtGET_LEDGER : Nat := 31

/-- Modelled from the spec: protocol message-type code `mtLEDGER_DATA`. -/
def mtLEDGER_DATA : Nat := 32

/-- Modelled from the spec: protocol message-type code `mtGET_OBJECTS`. -/
def mtGET_OBJECTS : Nat := 34

/-- Modelled from the spec: protocol message-type code `mtVALIDATORLIST`. -/
def mtVALIDATORLIST : Nat := 54

/-- Modelled from the spec: `compression::Algorithm::LZ4`, the 3-bit
compression-algorithm selector value for LZ4 (the enum lives in
`Compression.h`, outside this repository slice). -/
def algorithmLZ4 : Nat := 1

/-- The fixed allow-list of compressible message types. -/
def allowedTypes : List Nat :=
  [mtMANIFESTS, mtENDPOINTS, mtTRANSACTION, mtGET_LEDGER, mtLEDGER_DATA,
   mtGET_OBJECTS, mtVALIDATORLIST]

/-- The `set_header` lambda of `Message::Message`: produce the 6 header
bytes for a payload of `messageBytes` bytes of the given type;
`compression` is `(compressed ? 0xF0 : 0) & (0x80 | (compr_algorithm <<
4))`, OR-ed into the top byte of the big-endian length field. -/
def set_header (messageBytes : Nat) (type : Nat) (compressed : Bool)
    (compr_algorithm : Nat) : List Nat :=
  let compression := (if compressed then 0xF0 else 0) &&& (0x80 ||| (compr_algorithm <<< 4))
  [((messageBytes >>> 24) ||| compression) &&& 0xFF,
   (messageBytes >>> 16) &&& 0xFF,
   (messageBytes >>> 8) &&& 0xFF,
   messageBytes &&& 0xFF,
   (type >>> 8) &&& 0xFF,
   type &&& 0xFF]

/-- The two buffers a `Message` object holds: the uncompressed framing
(`mBuffer`) and the compressed framing (`mBufferCompressed`, empty when
compression was not applied or not kept). -/
structure MessageBuffers where
  buffer : List Nat
  bufferCompressed : List Nat
deriving DecidableEq, Repr

/-- Model of `Message::Message`: frame the serialized payload with a 6-byte
header; when compression is enabled, the type is in the allow-list and
the payload exceeds 70 bytes, compress the payload (`compressFn` models
the external `compression::compress`) and keep the compressed framing
only when the size reduction `1 - compressedSize / messageBytes`
(computed in `double` in the source; modelled exactly over `ℚ`) is
strictly positive. -/
def mkMessage (compressFn : List Nat → List Nat) (payload : List Nat)
    (type : Nat) (compression_enabled : Bool) : MessageBuffers :=
  let messageBytes := payload.length
  let buffer := set_header messageBytes type false algorithmLZ4 ++ payload
  let compressible := compression_enabled = true ∧
    (type = mtMANIFESTS ∨ type = mtENDPOINTS ∨ type = mtTRANSACTION ∨
     type = mtGET_LEDGER ∨ type = mtLEDGER_DATA ∨ type = mtGET_OBJECTS ∨
     type = mtVALIDATORLIST) ∧
    messageBytes > 70
  if compressible then
    let compressedPayload := compressFn payload
    let compressedSize := compressedPayload.length
    let reduction : ℚ := 1 - (compressedSize : ℚ) / (messageBytes : ℚ)
    if reduction > 0 then
      { buffer := buffer
        bufferCompressed :=
          set_header compressedSize type true algorithmLZ4 ++ compressedPayload }
    else
      { buffer := buffer, bufferCompressed := [] }
  else
    { buffer := buffer, bufferCompressed := [] }

/-- The big-endian 32-bit field formed by header bytes 0-3. -/
def hdrField32 (h : List Nat) : Nat :=
  h.getD 0 0 * 2 ^ 24 + h.getD 1 0 * 2 ^ 16 + h.getD 2 0 * 2 ^ 8 + h.getD 3 0

/-- The big-endian 16-bit message-type field formed by header bytes 4-5. -/
def hdrType (h : List Nat) : Nat :=
  h.getD 4 0 * 256 + h.getD 5 0

/-! ## Auxiliary definitions used by the claim statements -/

/-- The keys of a transaction item list. -/
def keysOf (l : List TxItem) : List Nat := l.map TxItem.key

/-- Defined from the spec's words, for comparison with
`log_metadata_difference`: the classification that names precisely the
set of differing fields among result, index, and node list, with the
all-false case logged as the "no apparent mismatch" anomaly. -/
def metaDiffClass (result_diff index_diff nodes_diff : Bool) : MetaDiffLog :=
  match result_diff, index_diff, nodes_diff with
  | false, false, false => .noApparent
  | true, true, false => .resultIndex
  | true, false, false => .resultOnly
  | false, true, false => .indexOnly
  | true, true, true => .resultIndexNodes
  | true, false, true => .resultNodes
  | false, true, true => .indexNodes
  | false, false, true => .nodesOnly

/-- Whether a log event is the transaction-count line (either form). -/
def isCountLog : LogEvent → Bool
  | .sameTx _ => true
  | .diffTx _ _ => true
  | _ => false

/-- Whether a log event is a per-transaction line mentioning key `k`. -/
def mentionsTx (k : Nat) : LogEvent → Bool
  | .missingTx _ key _ => key == k
  | .metaDiff key _ => key == k
  | _ => false

/-- Whether a tracker entry has both its built and validated side
populated. -/
def cvFull : Option CVEntry → Bool
  | some e => e.built.isSome && e.validated.isSome
  | none => false

/-- Claim C2 as stated: under any sequential interleaving of tracker
events for one sequence, the diagnosis fires exactly once per (built,
validated) pair that is fully populated and unequal — in particular once
for the pair held by the final entry when that pair is unequal. -/
def claimC2Statement : Prop :=
  ∀ (loadByHash : Nat → Option Ledger) (st : HState) (s : Nat)
    (events : List CVEvent),
    (∀ e ∈ events, e.seq = s) → st.cv s = none →
    ∀ entry, (runCV loadByHash st events).1.cv s = some entry →
    ∀ b v, entry.built = some b → entry.validated = some v → b ≠ v →
    ((runCV loadByHash st events).2.filter
      (fun c => c.built == b && c.valid == v)).length = 1

/-- A loader that never finds a ledger. -/
def noLoader : Nat → Option Ledger := fun _ => none

/-- A minimal immutable ledger with the given sequence and hash. -/
def plainLedger (s h : Nat) : Ledger := ⟨⟨s, h, 0, 0⟩, 1, true, []⟩

/-- The event interleaving refuting claim C2 as stated: build hash 1,
validate hash 2 (fires once), then rebuild hash 3 — the final pair
(3, 2) is fully populated and unequal but never diagnosed. -/
def c2Events : List CVEvent :=
  [.builtEv (plainLedger 0 1) 10 99,
   .validatedEv (plainLedger 0 2) (some 11),
   .builtEv (plainLedger 0 3) 10 99]

/-- A mutable ledger, for exercising the `LogicError` path of `insert`. -/
def mutableLedger : Ledger := ⟨⟨3, 7, 0, 0⟩, 1, false, []⟩

/-- An immutable ledger whose identity hash is zero (its state-map hash
is non-zero), for refuting claim C7 as stated. -/
def zeroHashLedger : Ledger := ⟨⟨3, 0, 0, 0⟩, 1, true, []⟩

/-- Built-side ledger for the C6 counterexample: same parent and close
time as `c6Valid`, same single transaction key, different item bytes. -/
def c6Built : Ledger := ⟨⟨7, 100, 5, 20⟩, 1, true, [⟨1, [0], none⟩]⟩

/-- Validated-side ledger for the C6 counterexample. -/
def c6Valid : Ledger := ⟨⟨7, 101, 5, 20⟩, 1, true, [⟨1, [1], none⟩]⟩

/-- A loader by sequence returning a ledger whose sequence (7) differs
from the only index it answers (5), for claim C10. -/
def c10Loader : Nat → Option Ledger :=
  fun i => if i = 5 then some (plainLedger 7 42) else none

/-- Built ledger with a distinct parent hash, for the C3 witness. -/
def c3SyncBuilt : Ledger := ⟨⟨9, 50, 1, 20⟩, 1, true, []⟩

/-- Valid ledger with a different parent hash, for the C3 witness. -/
def c3SyncValid : Ledger := ⟨⟨9, 51, 2, 20⟩, 1, true, []⟩

/-- Valid ledger with the same parent but a different close time, for
the C3 witness. -/
def c3ByzValid : Ledger := ⟨⟨9, 51, 1, 21⟩, 1, true, []⟩

/-- Built ledger whose single transaction metadata differs from the
valid side only in the result code, for the C5 witness. -/
def c5Built : Ledger := ⟨⟨3, 60, 1, 5⟩, 1, true, [⟨2, [0], some ⟨0, 0, [1]⟩⟩]⟩

/-- Valid-side ledger for the C5 witness. -/
def c5Valid : Ledger := ⟨⟨3, 61, 1, 5⟩, 1, true, [⟨2, [1], some ⟨1, 0, [1]⟩⟩]⟩

/-- Built ledger with transaction keys 1 and 2, for the C4 witness. -/
def c4Built : Ledger :=
  ⟨⟨4, 70, 1, 9⟩, 1, true,
   [⟨1, [5], some ⟨0, 0, []⟩⟩, ⟨2, [6], some ⟨0, 1, []⟩⟩]⟩

/-- Valid ledger with transaction keys 1 and 3, sharing item 1 with
`c4Built`, for the C4 witness. -/
def c4Valid : Ledger :=
  ⟨⟨4, 71, 1, 9⟩, 1, true,
   [⟨1, [5], some ⟨0, 0, []⟩⟩, ⟨3, [7], some ⟨0, 2, []⟩⟩]⟩

end Rippled
namespace Rippled

/-! ## Helper lemmas -/

theorem mupd_self {α : Type} (f : Nat → Option α) (k : Nat) (v : α) :
    mupd f k v k = some v := by simp [mupd]

theorem getLedgerByHashOp_counter (lh : Nat → Option Ledger) (st : HState)
    (h : Nat) :
    (getLedgerByHashOp lh st h).1.mismatchCounter = st.mismatchCounter := by
  unfold getLedgerByHashOp retrieveOrInsert
  cases hc : st.ledgerCache h with
  | some l => rfl
  | none =>
    cases hl : lh h with
    | none => rfl
    | some ret =>
      cases hc2 : st.ledgerCache ret.info.hash with
      | some e => simp [hc2]
      | none => simp [hc2]

theorem handleMismatchOp_counter (lh : Nat → Option Ledger) (st : HState)
    (b v : Nat) (bch vch : Option Nat) (c : Nat) :
    (handleMismatchOp lh st b v bch vch c).1.mismatchCounter =
      st.mismatchCounter + 1 := by
  unfold handleMismatchOp
  rcases h1 : (getLedgerByHashOp lh { st with mismatchCounter := st.mismatchCounter + 1 } b) with ⟨st1, r1⟩
  rcases h2 : getLedgerByHashOp lh st1 v with ⟨st2, r2⟩
  have e1 : st1.mismatchCounter = st.mismatchCounter + 1 := by
    have := getLedgerByHashOp_counter lh { st with mismatchCounter := st.mismatchCounter + 1 } b
    rw [h1] at this; exact this
  have e2 : st2.mismatchCounter = st1.mismatchCounter := by
    have := getLedgerByHashOp_counter lh st1 v
    rw [h2] at this; exact this
  rcases r1 with _ | l1 <;> rcases r2 with _ | l2 <;> simp [h1, h2, e1, e2]

/-- Claim C7 counterexample support: inserting an immutable ledger whose
identity hash is zero returns normally, caches it and indexes it. -/
theorem C7_counterexample :
    (insertLedger initialHState zeroHashLedger true).isOk = true ∧
    ((insertLedger initialHState zeroHashLedger true).toOption.map
      (fun p => p.1)) = some false ∧
    ((insertLedger initialHState zeroHashLedger true).toOption.map
      (fun p => p.2.ledgerCache 0)) = some (some zeroHashLedger) ∧
    ((insertLedger initialHState zeroHashLedger true).toOption.map
      (fun p => p.2.ledgersByIndex 3)) = some (some 0) := by
  decide

theorem insertLedger_ok (st : HState) (L : Ledger) (v : Bool)
    (h : L.isImmutable = true) :
    insertLedger st L v = .ok ((st.ledgerCache L.info.hash).isSome,
      ⟨mupd st.ledgerCache L.info.hash L,
       if v then mupd st.ledgersByIndex L.info.seq L.info.hash
       else st.ledgersByIndex,
       st.cv, st.mismatchCounter⟩) := by
  cases v <;> simp [insertLedger, h]

/-- Claim C7 amended: `insert` aborts only for a mutable ledger;
an immutable ledger is cached under its hash (and indexed when
validated) regardless of its hash value. -/
theorem C7_amended (st : HState) (L : Ledger) (v : Bool) :
    (L.isImmutable = false → insertLedger st L v = .error "mutable Ledger in insert") ∧
    (L.isImmutable = true →
      (insertLedger st L v).toOption.map Prod.fst =
        some (st.ledgerCache L.info.hash).isSome ∧
      (insertLedger st L v).toOption.map (fun p => p.2.ledgerCache L.info.hash) =
        some (some L) ∧
      (insertLedger st L v).toOption.map (fun p => p.2.ledgersByIndex L.info.seq) =
        some (if v then some L.info.hash else st.ledgersByIndex L.info.seq)) := by
  constructor
  · intro h; simp [insertLedger, h]
  · intro h
    rw [insertLedger_ok st L v h]
    refine ⟨rfl, congrArg some (mupd_self _ _ _), ?_⟩
    cases v
    · rfl
    · exact congrArg some (mupd_self _ _ _)

theorem C7_amended_witness :
    insertLedger initialHState mutableLedger true = .error "mutable Ledger in insert" ∧
    (insertLedger initialHState (plainLedger 4 9) true).toOption.map
      (fun p => p.2.ledgerCache 9) = some (some (plainLedger 4 9)) := by
  refine ⟨(C7_amended initialHState mutableLedger true).1 rfl, ?_⟩
  exact ((C7_amended initialHState (plainLedger 4 9) true).2 rfl).2.1

/-- Claim C10: on an index miss with a loader result whose sequence
differs from the request, nothing is returned, yet the ledger is cached
and its actual sequence-to-hash binding recorded. -/
theorem C10_getLedgerBySeq (lh li : Nat → Option Ledger) (st : HState)
    (index : Nat) (L : Ledger)
    (h0 : st.ledgersByIndex index = none)
    (h1 : li index = some L)
    (h2 : L.info.seq ≠ index)
    (h3 : st.ledgerCache L.info.hash = none) :
    (getLedgerBySeqOp lh li st index).2 = none ∧
    (getLedgerBySeqOp lh li st index).1.ledgerCache L.info.hash = some L ∧
    (getLedgerBySeqOp lh li st index).1.ledgersByIndex L.info.seq =
      some L.info.hash := by
  unfold getLedgerBySeqOp retrieveOrInsert
  simp [h0, h1, h3, h2, mupd]

theorem C10_witness :
    (getLedgerBySeqOp noLoader c10Loader initialHState 5).2 = none ∧
    (getLedgerBySeqOp noLoader c10Loader initialHState 5).1.ledgerCache
      (plainLedger 7 42).info.hash = some (plainLedger 7 42) ∧
    (getLedgerBySeqOp noLoader c10Loader initialHState 5).1.ledgersByIndex
      (plainLedger 7 42).info.seq = some (plainLedger 7 42).info.hash :=
  C10_getLedgerBySeq noLoader c10Loader initialHState 5 (plainLedger 7 42)
    rfl (by simp [c10Loader]) (by decide) rfl

theorem builtLedgerOp_fresh (lh : Nat → Option Ledger) (st : HState)
    (L : Ledger) (ch cj : Nat) (h0 : st.cv L.info.seq = none) :
    builtLedgerOp lh st L ch cj =
      (⟨st.ledgerCache, st.ledgersByIndex,
        mupd st.cv L.info.seq ⟨some L.info.hash, some ch, some cj, none, none⟩,
        st.mismatchCounter⟩, [], []) := by
  unfold builtLedgerOp
  dsimp only
  rw [h0]
  rfl

theorem validatedLedgerOp_fire (lh : Nat → Option Ledger) (st : HState)
    (L : Ledger) (vch : Option Nat) (entry : CVEntry)
    (he : st.cv L.info.seq = some entry)
    (hf1 : entry.built.isSome = true) (hf2 : entry.validated.isNone = true)
    (hf3 : entry.built ≠ some L.info.hash) :
    (validatedLedgerOp lh st L vch).2.1 =
      [⟨entry.built.getD 0, L.info.hash, entry.builtConsensusHash, vch,
        entry.consensus.getD 0⟩] ∧
    (validatedLedgerOp lh st L vch).1.mismatchCounter =
      st.mismatchCounter + 1 := by
  unfold validatedLedgerOp
  dsimp only
  rw [he]
  simp only [Option.getD_some]
  rw [if_pos ⟨hf1, hf2, hf3⟩]
  exact ⟨rfl, handleMismatchOp_counter lh st (entry.built.getD 0) L.info.hash
    entry.builtConsensusHash vch (entry.consensus.getD 0)⟩

theorem validatedLedgerOp_noFire (lh : Nat → Option Ledger) (st : HState)
    (L : Ledger) (vch : Option Nat)
    (hn : ¬ (((st.cv L.info.seq).getD {}).built.isSome = true ∧
      ((st.cv L.info.seq).getD {}).validated.isNone = true ∧
      ((st.cv L.info.seq).getD {}).built ≠ some L.info.hash)) :
    (validatedLedgerOp lh st L vch).2.1 = [] ∧
    (validatedLedgerOp lh st L vch).1.mismatchCounter = st.mismatchCounter := by
  unfold validatedLedgerOp
  dsimp only
  rw [if_neg hn]
  exact ⟨rfl, rfl⟩

/-- Claim C1: from a state with no tracker entry for the sequence,
`builtLedger` followed by `validatedLedger` invokes the mismatch
analyzer exactly once, with built=H1 and valid=H2, and increments the
mismatch counter by exactly 1, when the hashes differ; and invokes it
zero times, leaving the counter unchanged, when they are equal. -/
theorem C1_built_then_validated (lh : Nat → Option Ledger) (st : HState)
    (ch cj : Nat) (vch : Option Nat) (L1 L2 : Ledger)
    (h0 : st.cv L1.info.seq = none) (h2 : L2.info.seq = L1.info.seq) :
    (builtLedgerOp lh st L1 ch cj).2.1 = [] ∧
    (L1.info.hash ≠ L2.info.hash →
      (validatedLedgerOp lh (builtLedgerOp lh st L1 ch cj).1 L2 vch).2.1 =
        [⟨L1.info.hash, L2.info.hash, some ch, vch, cj⟩] ∧
      (validatedLedgerOp lh (builtLedgerOp lh st L1 ch cj).1 L2 vch).1.mismatchCounter =
        st.mismatchCounter + 1) ∧
    (L1.info.hash = L2.info.hash →
      (validatedLedgerOp lh (builtLedgerOp lh st L1 ch cj).1 L2 vch).2.1 = [] ∧
      (validatedLedgerOp lh (builtLedgerOp lh st L1 ch cj).1 L2 vch).1.mismatchCounter =
        st.mismatchCounter) := by
  have hb := builtLedgerOp_fresh lh st L1 ch cj h0
  have hcv : (builtLedgerOp lh st L1 ch cj).1.cv L2.info.seq =
      some ⟨some L1.info.hash, some ch, some cj, none, none⟩ := by
    rw [hb, h2]
    exact mupd_self _ _ _
  have hcounter : (builtLedgerOp lh st L1 ch cj).1.mismatchCounter =
      st.mismatchCounter := by rw [hb]
  refine ⟨by rw [hb], ?_, ?_⟩
  · intro hne
    have h := validatedLedgerOp_fire lh (builtLedgerOp lh st L1 ch cj).1 L2 vch
      ⟨some L1.info.hash, some ch, some cj, none, none⟩ hcv rfl rfl
      (by simpa using hne)
    rw [hcounter] at h
    exact h
  · intro heq
    have h := validatedLedgerOp_noFire lh (builtLedgerOp lh st L1 ch cj).1 L2 vch
      (by rw [hcv]; simp [heq])
    rw [hcounter] at h
    exact h

theorem C1_witness :
    (builtLedgerOp noLoader initialHState (plainLedger 5 1) 10 99).2.1 = [] ∧
    (validatedLedgerOp noLoader
      (builtLedgerOp noLoader initialHState (plainLedger 5 1) 10 99).1
      (plainLedger 5 2) (some 11)).2.1 = [⟨1, 2, some 10, some 11, 99⟩] ∧
    (validatedLedgerOp noLoader
      (builtLedgerOp noLoader initialHState (plainLedger 5 1) 10 99).1
      (plainLedger 5 2) (some 11)).1.mismatchCounter = 1 := by
  have h := C1_built_then_validated noLoader initialHState 10 99 (some 11)
    (plainLedger 5 1) (plainLedger 5 2) rfl rfl
  have h2 := h.2.1 (by decide)
  exact ⟨h.1, h2.1, h2.2⟩

theorem stepCV_length (lh : Nat → Option Ledger) (st : HState) (e : CVEvent) :
    (stepCV lh st e).2.length ≤ 1 := by
  cases e with
  | builtEv l ch c =>
    unfold stepCV builtLedgerOp
    dsimp only
    split <;> simp
  | validatedEv l ch =>
    unfold stepCV validatedLedgerOp
    dsimp only
    split <;> simp

theorem stepCV_full (lh : Nat → Option Ledger) (st : HState) (e : CVEvent)
    (s : Nat) (hs : e.seq = s) (hfull : cvFull (st.cv s) = true) :
    (stepCV lh st e).2 = [] ∧ cvFull ((stepCV lh st e).1.cv s) = true := by
  obtain ⟨entry, he, hb, hv⟩ : ∃ entry, st.cv s = some entry ∧
      entry.built.isSome = true ∧ entry.validated.isSome = true := by
    cases hcv : st.cv s with
    | none => rw [hcv] at hfull; simp [cvFull] at hfull
    | some entry =>
      rw [hcv] at hfull
      simp only [cvFull, Bool.and_eq_true] at hfull
      exact ⟨entry, rfl, hfull.1, hfull.2⟩
  cases e with
  | builtEv l ch c =>
    have hls : l.info.seq = s := hs
    unfold stepCV builtLedgerOp
    dsimp only
    rw [hls, he]
    simp only [Option.getD_some]
    have hnf : ¬ (entry.validated.isSome = true ∧ entry.built.isNone = true ∧
        entry.validated ≠ some l.info.hash) := by
      rintro ⟨-, hbn, -⟩
      rw [Option.isNone_iff_eq_none] at hbn
      rw [hbn] at hb
      cases hb
    rw [if_neg hnf]
    exact ⟨rfl, by simp [cvFull, mupd_self, hv]⟩
  | validatedEv l ch =>
    have hls : l.info.seq = s := hs
    unfold stepCV validatedLedgerOp
    dsimp only
    rw [hls, he]
    simp only [Option.getD_some]
    have hnf : ¬ (entry.built.isSome = true ∧ entry.validated.isNone = true ∧
        entry.built ≠ some l.info.hash) := by
      rintro ⟨-, hvn, -⟩
      rw [Option.isNone_iff_eq_none] at hvn
      rw [hvn] at hv
      cases hv
    rw [if_neg hnf]
    exact ⟨rfl, by simp [cvFull, mupd_self, hb]⟩

theorem stepCV_fire_full (lh : Nat → Option Ledger) (st : HState)
    (e : CVEvent) (s : Nat) (hs : e.seq = s)
    (hne : (stepCV lh st e).2 ≠ []) :
    cvFull ((stepCV lh st e).1.cv s) = true := by
  cases e with
  | builtEv l ch c =>
    have hls : l.info.seq = s := hs
    unfold stepCV builtLedgerOp at hne ⊢
    dsimp only at hne ⊢
    rw [hls] at hne ⊢
    by_cases hf : (((st.cv s).getD {}).validated.isSome = true ∧
        ((st.cv s).getD {}).built.isNone = true ∧
        ((st.cv s).getD {}).validated ≠ some l.info.hash)
    · rw [if_pos hf]
      simp [cvFull, mupd_self, hf.1]
    · rw [if_neg hf] at hne
      exact absurd rfl hne
  | validatedEv l ch =>
    have hls : l.info.seq = s := hs
    unfold stepCV validatedLedgerOp at hne ⊢
    dsimp only at hne ⊢
    rw [hls] at hne ⊢
    by_cases hf : (((st.cv s).getD {}).built.isSome = true ∧
        ((st.cv s).getD {}).validated.isNone = true ∧
        ((st.cv s).getD {}).built ≠ some l.info.hash)
    · rw [if_pos hf]
      simp [cvFull, mupd_self, hf.1]
    · rw [if_neg hf] at hne
      exact absurd rfl hne

theorem runCV_full (lh : Nat → Option Ledger) (s : Nat) :
    ∀ (events : List CVEvent) (st : HState), (∀ e ∈ events, e.seq = s) →
      cvFull (st.cv s) = true →
      (runCV lh st events).2 = [] ∧
      cvFull ((runCV lh st events).1.cv s) = true := by
  intro events
  induction events with
  | nil => intro st _ hf; exact ⟨rfl, hf⟩
  | cons e es ih =>
    intro st hseq hf
    have hstep := stepCV_full lh st e s (hseq e (by simp)) hf
    have hrest := ih (stepCV lh st e).1
      (fun x hx => hseq x (List.mem_cons_of_mem _ hx)) hstep.2
    unfold runCV
    dsimp only
    rw [hstep.1, hrest.1]
    exact ⟨rfl, hrest.2⟩

/-- Claim C2 amended: under any sequential interleaving of built and
validated events for one sequence, the mismatch diagnosis fires at most
once in total, and never fires at all once the entry has both sides
populated — in particular it is never triggered again for a pair that
later becomes equal, nor for a new unequal pair formed by a rebuild. -/
theorem C2_amended (lh : Nat → Option Ledger) (st : HState) (s : Nat)
    (events : List CVEvent) (hseq : ∀ e ∈ events, e.seq = s) :
    (runCV lh st events).2.length ≤ 1 ∧
    (cvFull (st.cv s) = true → (runCV lh st events).2 = []) := by
  constructor
  · induction events generalizing st with
    | nil => simp [runCV]
    | cons e es ih =>
      unfold runCV
      dsimp only
      rw [List.length_append]
      rcases hcalls : (stepCV lh st e).2 with - | ⟨c, cs⟩
      · have h2 := ih ((stepCV lh st e).1)
          (fun x hx => hseq x (List.mem_cons_of_mem _ hx))
        simpa using h2
      · have hlen := stepCV_length lh st e
        rw [hcalls] at hlen
        have hcs : cs = [] := by
          cases cs with
          | nil => rfl
          | cons a as => simp at hlen
        subst hcs
        have hfull := stepCV_fire_full lh st e s (hseq e (by simp))
          (by rw [hcalls]; simp)
        have hrest := runCV_full lh s es (stepCV lh st e).1
          (fun x hx => hseq x (List.mem_cons_of_mem _ hx)) hfull
        rw [hrest.1]
        simp
  · intro hf
    exact (runCV_full lh s events st hseq hf).1

theorem C2_amended_witness :
    (runCV noLoader initialHState c2Events).2.length ≤ 1 ∧
    (cvFull (initialHState.cv 0) = true →
      (runCV noLoader initialHState c2Events).2 = []) :=
  C2_amended noLoader initialHState 0 c2Events (by decide)

/-- Claim C2 counterexample: after build 1, validate 2, rebuild 3, the
final entry holds the fully populated unequal pair (3, 2), yet no
diagnosis with built=3, valid=2 ever fired — the claim's "exactly once
per fully populated, unequal pair" fails for pairs formed by rebuilds. -/
theorem C2_counterexample : ¬ claimC2Statement := by
  intro h
  have h2 := h noLoader initialHState 0 c2Events (by decide) rfl
    ⟨some 3, some 10, some 99, some 2, some 11⟩ rfl 3 2 rfl rfl (by decide)
  exact absurd h2 (by decide)

theorem reduction_pos_iff (c m : Nat) (hm : 0 < m) :
    (1 - (c : ℚ) / (m : ℚ) > 0) ↔ c < m := by
  rw [gt_iff_lt, sub_pos, div_lt_one (by exact_mod_cast hm)]
  exact_mod_cast Iff.rfl

/-- Claim C8: a compressed payload is produced exactly when compression
is enabled, the type is in the allow-list, the payload exceeds 70 bytes,
and compression achieves a strictly positive size reduction; otherwise
only the uncompressed framing exists. -/
theorem C8_compression (compressFn : List Nat → List Nat)
    (payload : List Nat) (type : Nat) (enabled : Bool) :
    ((mkMessage compressFn payload type enabled).bufferCompressed ≠ [] ↔
      (enabled = true ∧ type ∈ allowedTypes ∧ payload.length > 70 ∧
        (compressFn payload).length < payload.length)) ∧
    (mkMessage compressFn payload type enabled).buffer =
      set_header payload.length type false algorithmLZ4 ++ payload := by
  have hmem : type ∈ allowedTypes ↔
      (type = mtMANIFESTS ∨ type = mtENDPOINTS ∨ type = mtTRANSACTION ∨
       type = mtGET_LEDGER ∨ type = mtLEDGER_DATA ∨ type = mtGET_OBJECTS ∨
       type = mtVALIDATORLIST) := by
    simp [allowedTypes]
  constructor
  · unfold mkMessage
    dsimp only
    by_cases hc : (enabled = true ∧
        (type = mtMANIFESTS ∨ type = mtENDPOINTS ∨ type = mtTRANSACTION ∨
         type = mtGET_LEDGER ∨ type = mtLEDGER_DATA ∨ type = mtGET_OBJECTS ∨
         type = mtVALIDATORLIST) ∧ payload.length > 70)
    · rw [if_pos hc]
      by_cases hr : (1 - ((compressFn payload).length : ℚ) /
          ((payload.length : Nat) : ℚ) > 0)
      · rw [if_pos hr]
        have hlt := (reduction_pos_iff (compressFn payload).length
          payload.length (by omega)).mp hr
        simp only [set_header]
        constructor
        · intro _
          exact ⟨hc.1, hmem.mpr hc.2.1, hc.2.2, hlt⟩
        · intro _
          simp
      · rw [if_neg hr]
        constructor
        · intro h; exact absurd rfl h
        · rintro ⟨-, -, -, hlt⟩
          exact absurd ((reduction_pos_iff _ _ (by omega)).mpr hlt) hr
    · rw [if_neg hc]
      constructor
      · intro h; exact absurd rfl h
      · rintro ⟨he, hm, h70, -⟩
        exact absurd ⟨he, hmem.mp hm, h70⟩ hc
  · unfold mkMessage
    dsimp only
    split
    · split <;> rfl
    · rfl

theorem or_mul_sixteen (x C : Nat) (hx : x < 16) (hC : C % 16 = 0) :
    x ||| C = C + x := by
  obtain ⟨k, rfl⟩ : ∃ k, C = 16 * k := ⟨C / 16, by omega⟩
  rw [Nat.or_comm]
  have h := Nat.mul_add_lt_is_or (show x < 2 ^ 4 by norm_num [hx]) k
  norm_num at h
  exact h.symm

theorem set_header_bytes (len type algo : Nat) (compressed : Bool)
    (halgo : algo < 8) :
    set_header len type compressed algo =
      [((len >>> 24) ||| (if compressed then 128 + 16 * algo else 0)) &&& 255,
       (len >>> 16) &&& 255, (len >>> 8) &&& 255, len &&& 255,
       (type >>> 8) &&& 255, type &&& 255] := by
  have hC : ((0xF0 : Nat) &&& (128 ||| algo <<< 4)) = 128 + 16 * algo := by
    interval_cases algo <;> decide
  cases compressed with
  | false => simp [set_header]
  | true => simp [set_header, hC]

/-- Claim C9: the 6-byte header carries the payload length big-endian in
bits 27..0 of bytes 0-3, the type code big-endian in bytes 4-5, and for
a compressed payload the top nibble of the 32-bit field is 8 + the
3-bit algorithm selector (bit 31 set as the compression flag, bits
30..28 the selector). -/
theorem C9_header_layout (len type algo : Nat) (compressed : Bool)
    (hlen : len < 2 ^ 28) (htype : type < 2 ^ 16) (halgo : algo < 8) :
    (set_header len type compressed algo).length = 6 ∧
    hdrField32 (set_header len type compressed algo) % 2 ^ 28 = len ∧
    hdrField32 (set_header len type compressed algo) / 2 ^ 28 =
      (if compressed then 8 + algo else 0) ∧
    hdrType (set_header len type compressed algo) = type := by
  rw [set_header_bytes len type algo compressed halgo]
  have hand : ∀ a : Nat, a &&& 255 = a % 256 := fun a => by
    have h := Nat.and_pow_two_sub_one_eq_mod a 8
    norm_num at h
    exact h
  have hsr24 : len >>> 24 = len / 2 ^ 24 := Nat.shiftRight_eq_div_pow len 24
  have hsr16 : len >>> 16 = len / 2 ^ 16 := Nat.shiftRight_eq_div_pow len 16
  have hsr8 : len >>> 8 = len / 2 ^ 8 := Nat.shiftRight_eq_div_pow len 8
  have htr : type >>> 8 = type / 2 ^ 8 := Nat.shiftRight_eq_div_pow type 8
  cases compressed with
  | false =>
    refine ⟨rfl, ?_, ?_, ?_⟩ <;>
      simp only [hdrField32, hdrType, List.getD_cons_zero, List.getD_cons_succ,
        if_neg (by simp : ¬ (false = true)), Nat.or_zero, hand,
        hsr24, hsr16, hsr8, htr] <;>
      omega
  | true =>
    have hor : (len >>> 24) ||| (if (true : Bool) then 128 + 16 * algo else 0) =
        128 + 16 * algo + len / 2 ^ 24 := by
      rw [if_pos rfl, hsr24]
      exact or_mul_sixteen (len / 2 ^ 24) (128 + 16 * algo) (by omega) (by omega)
    rw [hor]
    refine ⟨rfl, ?_, ?_, ?_⟩ <;>
      simp only [hdrField32, hdrType, List.getD_cons_zero, List.getD_cons_succ,
        hand, hsr16, hsr8, htr, if_true] <;>
      omega

theorem C9_witness :
    100 < 2 ^ 28 ∧ 30 < 2 ^ 16 ∧ 1 < 8 ∧
    ((set_header 100 30 true 1).length = 6 ∧
     hdrField32 (set_header 100 30 true 1) % 2 ^ 28 = 100 ∧
     hdrField32 (set_header 100 30 true 1) / 2 ^ 28 = (if true then 8 + 1 else 0) ∧
     hdrType (set_header 100 30 true 1) = 30) :=
  ⟨by norm_num, by norm_num, by norm_num,
   C9_header_layout 100 30 1 true (by norm_num) (by norm_num) (by norm_num)⟩

/-! ## Merge-join lemmas -/

theorem mergeDiff_nil_right (B V : Ledger) (bs : List TxItem) :
    mergeDiff B V bs [] = bs.map (fun b => log_one B b.key .valid) := by
  cases bs with
  | nil => rw [mergeDiff]
  | cons b bs => rw [mergeDiff]

theorem mergeDiff_nil_left (B V : Ledger) (vs : List TxItem) :
    mergeDiff B V [] vs = vs.map (fun v => log_one V v.key .built) := by
  cases vs with
  | nil => simp [mergeDiff_nil_right]
  | cons v vs =>
    rw [mergeDiff]
    exact List.cons_ne_nil v vs

theorem keysOf_cons (x : TxItem) (l : List TxItem) :
    keysOf (x :: l) = x.key :: keysOf l := rfl

theorem mem_keysOf (k : Nat) (l : List TxItem) :
    k ∈ keysOf l ↔ ∃ x ∈ l, x.key = k := by
  simp [keysOf]

theorem lt_head_not_mem_keys (x : Nat) (v : TxItem) (vs : List TxItem)
    (hs : (v :: vs).Pairwise (fun a b => a.key < b.key)) (h : x < v.key) :
    x ∉ keysOf (v :: vs) := by
  intro hmem
  rw [keysOf_cons, List.mem_cons] at hmem
  rcases hmem with rfl | hmem
  · exact absurd h (lt_irrefl _)
  · obtain ⟨t, ht, rfl⟩ := (mem_keysOf _ _).mp hmem
    have := (List.pairwise_cons.mp hs).1 t ht
    omega

theorem head_le_of_mem_keys (x : Nat) (v : TxItem) (vs : List TxItem)
    (hs : (v :: vs).Pairwise (fun a b => a.key < b.key))
    (hmem : x ∈ keysOf (v :: vs)) : v.key ≤ x := by
  rw [keysOf_cons, List.mem_cons] at hmem
  rcases hmem with rfl | hmem
  · exact le_refl _
  · obtain ⟨t, ht, rfl⟩ := (mem_keysOf _ _).mp hmem
    exact le_of_lt ((List.pairwise_cons.mp hs).1 t ht)

theorem key_unique (l : List TxItem)
    (hl : l.Pairwise (fun a b => a.key < b.key)) :
    ∀ x ∈ l, ∀ y ∈ l, x.key = y.key → x = y := by
  induction l with
  | nil => intro x hx; exact absurd hx (List.not_mem_nil x)
  | cons a t ih =>
    intro x hx y hy hk
    rcases List.mem_cons.mp hx with rfl | hx' <;>
      rcases List.mem_cons.mp hy with rfl | hy'
    · rfl
    · have := (List.pairwise_cons.mp hl).1 y hy'; omega
    · have := (List.pairwise_cons.mp hl).1 x hx'; omega
    · exact ih (List.pairwise_cons.mp hl).2 x hx' y hy' hk

theorem mergeDiff_missing_valid (B V : Ledger) (bl vl : List TxItem) :
    ∀ b ∈ bl, b.key ∉ keysOf vl →
      log_one B b.key .valid ∈ mergeDiff B V bl vl := by
  induction bl, vl using mergeDiff.induct B V with
  | case1 b' bs v' vs hlt ih =>
    intro b hb hnk
    rw [mergeDiff, if_pos hlt]
    rcases List.mem_cons.mp hb with rfl | hb'
    · exact List.mem_cons_self _ _
    · exact List.mem_cons_of_mem _ (ih b hb' hnk)
  | case2 b' bs v' vs hnlt hgt ih =>
    intro b hb hnk
    rw [mergeDiff, if_neg hnlt, if_pos hgt]
    refine List.mem_cons_of_mem _ (ih b hb fun h => hnk ?_)
    rw [keysOf_cons]
    exact List.mem_cons_of_mem _ h
  | case3 b' bs v' vs hnlt hngt ih =>
    intro b hb hnk
    rw [mergeDiff, if_neg hnlt, if_neg hngt]
    have hb' : b ∈ bs := by
      rcases List.mem_cons.mp hb with rfl | h
      · exfalso
        apply hnk
        rw [keysOf_cons]
        have : b.key = v'.key := by omega
        rw [this]
        exact List.mem_cons_self _ _
      · exact h
    refine List.mem_append_right _ (ih b hb' fun h => hnk ?_)
    rw [keysOf_cons]
    exact List.mem_cons_of_mem _ h
  | case4 bs =>
    intro b hb _
    rw [mergeDiff_nil_right]
    exact List.mem_map_of_mem _ hb
  | case5 vs hne =>
    intro b hb
    exact absurd hb (List.not_mem_nil b)

theorem mergeDiff_missing_built (B V : Ledger) (bl vl : List TxItem) :
    ∀ v ∈ vl, v.key ∉ keysOf bl →
      log_one V v.key .built ∈ mergeDiff B V bl vl := by
  induction bl, vl using mergeDiff.induct B V with
  | case1 b' bs v' vs hlt ih =>
    intro v hv hnk
    rw [mergeDiff, if_pos hlt]
    refine List.mem_cons_of_mem _ (ih v hv fun h => hnk ?_)
    rw [keysOf_cons]
    exact List.mem_cons_of_mem _ h
  | case2 b' bs v' vs hnlt hgt ih =>
    intro v hv hnk
    rw [mergeDiff, if_neg hnlt, if_pos hgt]
    rcases List.mem_cons.mp hv with rfl | hv'
    · exact List.mem_cons_self _ _
    · exact List.mem_cons_of_mem _ (ih v hv' hnk)
  | case3 b' bs v' vs hnlt hngt ih =>
    intro v hv hnk
    rw [mergeDiff, if_neg hnlt, if_neg hngt]
    have hv' : v ∈ vs := by
      rcases List.mem_cons.mp hv with rfl | h
      · exfalso
        apply hnk
        rw [keysOf_cons]
        have : v.key = b'.key := by omega
        rw [this]
        exact List.mem_cons_self _ _
      · exact h
    refine List.mem_append_right _ (ih v hv' fun h => hnk ?_)
    rw [keysOf_cons]
    exact List.mem_cons_of_mem _ h
  | case4 bs =>
    intro v hv
    exact absurd hv (List.not_mem_nil v)
  | case5 vs hne =>
    intro v hv _
    rw [mergeDiff_nil_left]
    exact List.mem_map_of_mem _ hv

theorem mergeDiff_metaDiff_mem (B V : Ledger) (bl vl : List TxItem) :
    bl.Pairwise (fun a b => a.key < b.key) →
    vl.Pairwise (fun a b => a.key < b.key) →
    ∀ b ∈ bl, ∀ v ∈ vl, b.key = v.key → b.slice ≠ v.slice →
    ∀ c ∈ log_metadata_difference B V b.key,
      LogEvent.metaDiff b.key c ∈ mergeDiff B V bl vl := by
  induction bl, vl using mergeDiff.induct B V with
  | case1 b' bs v' vs hlt ih =>
    intro hsb hsv b hb v hv hkeq hsl c hc
    rw [mergeDiff, if_pos hlt]
    refine List.mem_cons_of_mem _ ?_
    have hb' : b ∈ bs := by
      rcases List.mem_cons.mp hb with rfl | h
      · exfalso
        rcases List.mem_cons.mp hv with rfl | h2
        · omega
        · have := (List.pairwise_cons.mp hsv).1 v h2
          omega
      · exact h
    exact ih (List.pairwise_cons.mp hsb).2 hsv b hb' v hv hkeq hsl c hc
  | case2 b' bs v' vs hnlt hgt ih =>
    intro hsb hsv b hb v hv hkeq hsl c hc
    rw [mergeDiff, if_neg hnlt, if_pos hgt]
    refine List.mem_cons_of_mem _ ?_
    have hv' : v ∈ vs := by
      rcases List.mem_cons.mp hv with rfl | h
      · exfalso
        rcases List.mem_cons.mp hb with rfl | h2
        · omega
        · have := (List.pairwise_cons.mp hsb).1 b h2
          omega
      · exact h
    exact ih hsb (List.pairwise_cons.mp hsv).2 b hb v hv' hkeq hsl c hc
  | case3 b' bs v' vs hnlt hngt ih =>
    intro hsb hsv b hb v hv hkeq hsl c hc
    rw [mergeDiff, if_neg hnlt, if_neg hngt]
    rcases List.mem_cons.mp hb with rfl | hb' <;>
      rcases List.mem_cons.mp hv with rfl | hv'
    · refine List.mem_append_left _ ?_
      rw [if_pos hsl]
      exact List.mem_map_of_mem _ hc
    · exfalso
      have := (List.pairwise_cons.mp hsv).1 v hv'
      omega
    · exfalso
      have := (List.pairwise_cons.mp hsb).1 b hb'
      omega
    · exact List.mem_append_right _
        (ih (List.pairwise_cons.mp hsb).2 (List.pairwise_cons.mp hsv).2
          b hb' v hv' hkeq hsl c hc)
  | case4 bs =>
    intro _ _ b hb v hv
    exact absurd hv (List.not_mem_nil v)
  | case5 vs hne =>
    intro _ _ b hb
    exact absurd hb (List.not_mem_nil b)

theorem mergeDiff_sound (B V : Ledger) (bl vl : List TxItem) :
    bl.Pairwise (fun a b => a.key < b.key) →
    vl.Pairwise (fun a b => a.key < b.key) →
    ∀ e ∈ mergeDiff B V bl vl,
      (∃ b ∈ bl, e = log_one B b.key .valid ∧ b.key ∉ keysOf vl) ∨
      (∃ v ∈ vl, e = log_one V v.key .built ∧ v.key ∉ keysOf bl) ∨
      (∃ b ∈ bl, ∃ v ∈ vl, b.key = v.key ∧ b.slice ≠ v.slice ∧
        ∃ c ∈ log_metadata_difference B V b.key,
          e = LogEvent.metaDiff b.key c) := by
  induction bl, vl using mergeDiff.induct B V with
  | case1 b' bs v' vs hlt ih =>
    intro hsb hsv e he
    rw [mergeDiff, if_pos hlt] at he
    rcases List.mem_cons.mp he with rfl | he'
    · exact Or.inl ⟨b', List.mem_cons_self _ _, rfl,
        lt_head_not_mem_keys _ _ _ hsv hlt⟩
    · rcases ih (List.pairwise_cons.mp hsb).2 hsv e he' with
        ⟨b, hb, hee, hnk⟩ | ⟨v, hv, hee, hnk⟩ | ⟨b, hb, v, hv, hrest⟩
      · exact Or.inl ⟨b, List.mem_cons_of_mem _ hb, hee, hnk⟩
      · refine Or.inr (Or.inl ⟨v, hv, hee, fun hmem => ?_⟩)
        rw [keysOf_cons, List.mem_cons] at hmem
        rcases hmem with heq | hmem
        · have := head_le_of_mem_keys v.key v' vs hsv
            ((mem_keysOf _ _).mpr ⟨v, hv, rfl⟩)
          omega
        · exact hnk hmem
      · exact Or.inr (Or.inr ⟨b, List.mem_cons_of_mem _ hb, v, hv, hrest⟩)
  | case2 b' bs v' vs hnlt hgt ih =>
    intro hsb hsv e he
    rw [mergeDiff, if_neg hnlt, if_pos hgt] at he
    rcases List.mem_cons.mp he with rfl | he'
    · exact Or.inr (Or.inl ⟨v', List.mem_cons_self _ _, rfl,
        lt_head_not_mem_keys _ _ _ hsb hgt⟩)
    · rcases ih hsb (List.pairwise_cons.mp hsv).2 e he' with
        ⟨b, hb, hee, hnk⟩ | ⟨v, hv, hee, hnk⟩ | ⟨b, hb, v, hv, hrest⟩
      · refine Or.inl ⟨b, hb, hee, fun hmem => ?_⟩
        rw [keysOf_cons, List.mem_cons] at hmem
        rcases hmem with heq | hmem
        · have := head_le_of_mem_keys b.key b' bs hsb
            ((mem_keysOf _ _).mpr ⟨b, hb, rfl⟩)
          omega
        · exact hnk hmem
      · exact Or.inr (Or.inl ⟨v, List.mem_cons_of_mem _ hv, hee, hnk⟩)
      · exact Or.inr (Or.inr ⟨b, hb, v, List.mem_cons_of_mem _ hv, hrest⟩)
  | case3 b' bs v' vs hnlt hngt ih =>
    intro hsb hsv e he
    rw [mergeDiff, if_neg hnlt, if_neg hngt] at he
    have hkey : b'.key = v'.key := by omega
    rcases List.mem_append.mp he with hchunk | he'
    · by_cases hsl : b'.slice = v'.slice
      · rw [if_neg (not_not_intro hsl)] at hchunk
        exact absurd hchunk (List.not_mem_nil e)
      · rw [if_pos hsl] at hchunk
        obtain ⟨c, hc, rfl⟩ := List.mem_map.mp hchunk
        exact Or.inr (Or.inr ⟨b', List.mem_cons_self _ _, v',
          List.mem_cons_self _ _, hkey, hsl, c, hc, rfl⟩)
    · rcases ih (List.pairwise_cons.mp hsb).2 (List.pairwise_cons.mp hsv).2
        e he' with ⟨b, hb, hee, hnk⟩ | ⟨v, hv, hee, hnk⟩ | ⟨b, hb, v, hv, hrest⟩
      · refine Or.inl ⟨b, List.mem_cons_of_mem _ hb, hee, fun hmem => ?_⟩
        rw [keysOf_cons, List.mem_cons] at hmem
        rcases hmem with heq | hmem
        · have := (List.pairwise_cons.mp hsb).1 b hb
          omega
        · exact hnk hmem
      · refine Or.inr (Or.inl ⟨v, List.mem_cons_of_mem _ hv, hee, fun hmem => ?_⟩)
        rw [keysOf_cons, List.mem_cons] at hmem
        rcases hmem with heq | hmem
        · have := (List.pairwise_cons.mp hsv).1 v hv
          omega
        · exact hnk hmem
      · exact Or.inr (Or.inr ⟨b, List.mem_cons_of_mem _ hb, v,
          List.mem_cons_of_mem _ hv, hrest⟩)
  | case4 bs =>
    intro _ _ e he
    rw [mergeDiff_nil_right] at he
    obtain ⟨b, hb, rfl⟩ := List.mem_map.mp he
    exact Or.inl ⟨b, hb, rfl, List.not_mem_nil _⟩
  | case5 vs hne =>
    intro _ _ e he
    rw [mergeDiff_nil_left] at he
    obtain ⟨v, hv, rfl⟩ := List.mem_map.mp he
    exact Or.inr (Or.inl ⟨v, hv, rfl, List.not_mem_nil _⟩)

theorem sortByKey_mem (l : List TxItem) (x : TxItem) :
    x ∈ sortByKey l ↔ x ∈ l := by
  unfold sortByKey
  exact List.mem_insertionSort keyLE

theorem sortByKey_keys_mem (l : List TxItem) (k : Nat) :
    k ∈ keysOf (sortByKey l) ↔ k ∈ keysOf l := by
  rw [mem_keysOf, mem_keysOf]
  constructor
  · rintro ⟨x, hx, rfl⟩
    exact ⟨x, (sortByKey_mem l x).mp hx, rfl⟩
  · rintro ⟨x, hx, rfl⟩
    exact ⟨x, (sortByKey_mem l x).mpr hx, rfl⟩

theorem sortByKey_sorted_lt (l : List TxItem) (h : (keysOf l).Nodup) :
    (sortByKey l).Pairwise (fun a b => a.key < b.key) := by
  have hperm : List.Perm (sortByKey l) l := List.perm_insertionSort keyLE l
  have hnd : (keysOf (sortByKey l)).Nodup := by
    unfold keysOf
    exact (hperm.map TxItem.key).nodup_iff.mpr h
  have hne : (sortByKey l).Pairwise (fun a b => a.key ≠ b.key) :=
    List.pairwise_map.mp hnd
  have hle : (sortByKey l).Pairwise keyLE := List.sorted_insertionSort keyLE l
  exact (hle.and hne).imp fun hab => Nat.lt_of_le_of_ne hab.1 hab.2

theorem mergeDiff_no_count (B V : Ledger) (bl vl : List TxItem) :
    ∀ e ∈ mergeDiff B V bl vl, isCountLog e = false := by
  induction bl, vl using mergeDiff.induct B V with
  | case1 b' bs v' vs hlt ih =>
    intro e he
    rw [mergeDiff, if_pos hlt] at he
    rcases List.mem_cons.mp he with rfl | he'
    · rfl
    · exact ih e he'
  | case2 b' bs v' vs hnlt hgt ih =>
    intro e he
    rw [mergeDiff, if_neg hnlt, if_pos hgt] at he
    rcases List.mem_cons.mp he with rfl | he'
    · rfl
    · exact ih e he'
  | case3 b' bs v' vs hnlt hngt ih =>
    intro e he
    rw [mergeDiff, if_neg hnlt, if_neg hngt] at he
    rcases List.mem_append.mp he with hchunk | he'
    · by_cases hsl : b'.slice = v'.slice
      · rw [if_neg (not_not_intro hsl)] at hchunk
        exact absurd hchunk (List.not_mem_nil e)
      · rw [if_pos hsl] at hchunk
        obtain ⟨c, _, rfl⟩ := List.mem_map.mp hchunk
        rfl
    · exact ih e he'
  | case4 bs =>
    intro e he
    rw [mergeDiff_nil_right] at he
    obtain ⟨b, _, rfl⟩ := List.mem_map.mp he
    rfl
  | case5 vs hne =>
    intro e he
    rw [mergeDiff_nil_left] at he
    obtain ⟨v, _, rfl⟩ := List.mem_map.mp he
    rfl

theorem analyze_tx_stage (B V : Ledger) (bch vch : Option Nat)
    (hp : B.info.parentHash = V.info.parentHash)
    (hc : B.info.closeTime = V.info.closeTime) :
    handleMismatchAnalyze B V bch vch =
      LogEvent.mismatchHeader B.info.seq ::
      ((match bch, vch with
        | some b, some v =>
          if b ≠ v then [LogEvent.consensusDiffer b v]
          else [LogEvent.consensusSame b]
        | _, _ => ([] : List LogEvent)) ++
       ((if sortByKey B.txMap = sortByKey V.txMap then
           [LogEvent.sameTx (sortByKey B.txMap).length]
         else
           [LogEvent.diffTx (sortByKey B.txMap).length
             (sortByKey V.txMap).length]) ++
        [LogEvent.builtDump, LogEvent.validDump] ++
        mergeDiff B V (sortByKey B.txMap) (sortByKey V.txMap))) := by
  unfold handleMismatchAnalyze
  rw [if_neg (not_not_intro hp), if_neg (not_not_intro hc)]

theorem mem_analyze_cases (B V : Ledger) (bch vch : Option Nat)
    (hp : B.info.parentHash = V.info.parentHash)
    (hc : B.info.closeTime = V.info.closeTime)
    (e : LogEvent) (he : e ∈ handleMismatchAnalyze B V bch vch) :
    e = LogEvent.mismatchHeader B.info.seq ∨
    (∃ b0 v0, e = LogEvent.consensusDiffer b0 v0 ∨ e = LogEvent.consensusSame b0) ∨
    e = LogEvent.sameTx (sortByKey B.txMap).length ∨
    e = LogEvent.diffTx (sortByKey B.txMap).length (sortByKey V.txMap).length ∨
    e = LogEvent.builtDump ∨ e = LogEvent.validDump ∨
    e ∈ mergeDiff B V (sortByKey B.txMap) (sortByKey V.txMap) := by
  rw [analyze_tx_stage B V bch vch hp hc] at he
  rcases List.mem_cons.mp he with rfl | he
  · exact Or.inl rfl
  rcases List.mem_append.mp he with hcons | he
  · refine Or.inr (Or.inl ?_)
    rcases bch with - | b0 <;> rcases vch with - | v0 <;>
      try exact absurd hcons (List.not_mem_nil e)
    dsimp only at hcons
    by_cases hbv : b0 ≠ v0
    · rw [if_pos hbv] at hcons
      exact ⟨b0, v0, Or.inl (List.mem_singleton.mp hcons)⟩
    · rw [if_neg hbv] at hcons
      exact ⟨b0, v0, Or.inr (List.mem_singleton.mp hcons)⟩
  rcases List.mem_append.mp he with he | hmerge
  rcases List.mem_append.mp he with hcount | hdump
  · by_cases hsame : sortByKey B.txMap = sortByKey V.txMap
    · rw [if_pos hsame] at hcount
      exact Or.inr (Or.inr (Or.inl (List.mem_singleton.mp hcount)))
    · rw [if_neg hsame] at hcount
      exact Or.inr (Or.inr (Or.inr (Or.inl (List.mem_singleton.mp hcount))))
  · rcases List.mem_cons.mp hdump with rfl | hdump
    · exact Or.inr (Or.inr (Or.inr (Or.inr (Or.inl rfl))))
    · exact Or.inr (Or.inr (Or.inr (Or.inr (Or.inr (Or.inl
        (List.mem_singleton.mp hdump))))))
  · exact Or.inr (Or.inr (Or.inr (Or.inr (Or.inr (Or.inr hmerge)))))

/-- Claim C3: when both ledgers resolve, differing parent hashes classify
the mismatch as a synchronization divergence and stop (no close-time
log, no transaction-level diffing); with equal parents, differing close
times classify it as a Byzantine-failure signal and stop. -/
theorem C3_sync_and_byzantine (B V : Ledger) (bch vch : Option Nat) :
    (B.info.parentHash ≠ V.info.parentHash →
      handleMismatchAnalyze B V bch vch =
        [LogEvent.mismatchHeader B.info.seq, LogEvent.priorLedger]) ∧
    (B.info.parentHash = V.info.parentHash →
      B.info.closeTime ≠ V.info.closeTime →
      handleMismatchAnalyze B V bch vch =
        [LogEvent.mismatchHeader B.info.seq, LogEvent.closeTimeLog]) := by
  constructor
  · intro h
    unfold handleMismatchAnalyze
    rw [if_pos h]
  · intro h1 h2
    unfold handleMismatchAnalyze
    rw [if_neg (not_not_intro h1), if_pos h2]

theorem C3_witness :
    handleMismatchAnalyze c3SyncBuilt c3SyncValid none none =
      [LogEvent.mismatchHeader 9, LogEvent.priorLedger] ∧
    handleMismatchAnalyze c3SyncBuilt c3ByzValid none none =
      [LogEvent.mismatchHeader 9, LogEvent.closeTimeLog] :=
  ⟨(C3_sync_and_byzantine c3SyncBuilt c3SyncValid none none).1 (by decide),
   (C3_sync_and_byzantine c3SyncBuilt c3ByzValid none none).2 rfl (by decide)⟩

/-- Claim C5: with metadata parseable on both sides, the classifier's
nested branching agrees exactly with the three independent boolean
differences: the all-false case yields the "no apparent mismatch"
anomaly and every other case yields exactly the one message naming
precisely the differing fields. -/
theorem C5_metadata_classification (B V : Ledger) (tx : Nat)
    (vm bm : TxMeta) (hv : V.txRead tx = some vm)
    (hb : B.txRead tx = some bm) :
    log_metadata_difference B V tx =
      [metaDiffClass (decide (vm.resultTER ≠ bm.resultTER))
        (decide (vm.index ≠ bm.index)) (decide (vm.nodes ≠ bm.nodes))] := by
  unfold log_metadata_difference
  rw [hv, hb]
  by_cases h1 : vm.resultTER = bm.resultTER <;>
    by_cases h2 : vm.index = bm.index <;>
    by_cases h3 : vm.nodes = bm.nodes <;>
    simp [h1, h2, h3, metaDiffClass]

theorem C5_witness :
    log_metadata_difference c5Built c5Valid 2 = [MetaDiffLog.resultOnly] := by
  have h := C5_metadata_classification c5Built c5Valid 2 ⟨1, 0, [1]⟩ ⟨0, 0, [1]⟩
    rfl rfl
  simpa using h

/-- Claim C6 amended: the transaction-level stage logs the count line
exactly once; the "same" form appears exactly when the two full sorted
transaction item lists (keys and serialized bytes, not just the key
sets) are equal, and the two-count form otherwise. -/
theorem C6_amended (B V : Ledger) (bch vch : Option Nat)
    (hp : B.info.parentHash = V.info.parentHash)
    (hc : B.info.closeTime = V.info.closeTime) :
    (handleMismatchAnalyze B V bch vch).countP isCountLog = 1 ∧
    (sortByKey B.txMap = sortByKey V.txMap →
      LogEvent.sameTx (sortByKey B.txMap).length ∈
        handleMismatchAnalyze B V bch vch) ∧
    (sortByKey B.txMap ≠ sortByKey V.txMap →
      LogEvent.diffTx (sortByKey B.txMap).length (sortByKey V.txMap).length ∈
        handleMismatchAnalyze B V bch vch) := by
  rw [analyze_tx_stage B V bch vch hp hc]
  refine ⟨?_, ?_, ?_⟩
  · have hcons : (match bch, vch with
        | some b, some v =>
          if b ≠ v then [LogEvent.consensusDiffer b v]
          else [LogEvent.consensusSame b]
        | _, _ => ([] : List LogEvent)).countP isCountLog = 0 := by
      rcases bch with - | b0 <;> rcases vch with - | v0 <;> try rfl
      dsimp only
      by_cases hbv : b0 ≠ v0
      · rw [if_pos hbv]; rfl
      · rw [if_neg hbv]; rfl
    have hcount : (if sortByKey B.txMap = sortByKey V.txMap then
        [LogEvent.sameTx (sortByKey B.txMap).length]
      else [LogEvent.diffTx (sortByKey B.txMap).length
        (sortByKey V.txMap).length]).countP isCountLog = 1 := by
      by_cases hsame : sortByKey B.txMap = sortByKey V.txMap
      · rw [if_pos hsame]; rfl
      · rw [if_neg hsame]; rfl
    have hmerge : (mergeDiff B V (sortByKey B.txMap)
        (sortByKey V.txMap)).countP isCountLog = 0 := by
      rw [List.countP_eq_zero]
      intro e he
      simp [mergeDiff_no_count B V _ _ e he]
    rw [List.countP_cons, List.countP_append, List.countP_append,
      List.countP_append, hcons, hcount, hmerge]
    rfl
  · intro hsame
    refine List.mem_cons_of_mem _ (List.mem_append_right _
      (List.mem_append_left _ (List.mem_append_left _ ?_)))
    rw [if_pos hsame]
    exact List.mem_singleton_self _
  · intro hne
    refine List.mem_cons_of_mem _ (List.mem_append_right _
      (List.mem_append_left _ (List.mem_append_left _ ?_)))
    rw [if_neg hne]
    exact List.mem_singleton_self _

theorem C6_amended_witness :
    (handleMismatchAnalyze c6Built c6Valid none none).countP isCountLog = 1 ∧
    (sortByKey c6Built.txMap = sortByKey c6Valid.txMap →
      LogEvent.sameTx (sortByKey c6Built.txMap).length ∈
        handleMismatchAnalyze c6Built c6Valid none none) ∧
    (sortByKey c6Built.txMap ≠ sortByKey c6Valid.txMap →
      LogEvent.diffTx (sortByKey c6Built.txMap).length
        (sortByKey c6Valid.txMap).length ∈
        handleMismatchAnalyze c6Built c6Valid none none) :=
  C6_amended c6Built c6Valid none none rfl rfl

/-- Claim C6 counterexample: two ledgers with identical transaction-key
sets but different item bytes are reported with the two-count
"different" log line, not the "same transactions" line — set identity
is judged on the full item lists, not on the key sets. -/
theorem C6_counterexample :
    keysOf c6Built.txMap = keysOf c6Valid.txMap ∧
    LogEvent.sameTx 1 ∉ handleMismatchAnalyze c6Built c6Valid none none ∧
    LogEvent.diffTx 1 1 ∈ handleMismatchAnalyze c6Built c6Valid none none := by
  refine ⟨rfl, ?_, ?_⟩ <;>
    simp [handleMismatchAnalyze, sortByKey, List.insertionSort, mergeDiff,
      c6Built, c6Valid, log_metadata_difference, Ledger.txRead, keysOf,
      List.find?, log_one]

/-- Claim C4: with the analysis at the transaction-level stage and
key-unique transaction maps, a key only in the built ledger is logged as
missing from the valid side (metadata read from the built ledger), a key
only in the valid ledger symmetrically; a key in both with equal bytes
produces no per-transaction log at all; a key in both with differing
bytes yields the metadata-difference classification; and the
classification never fires for a one-sided key. -/
theorem C4_merge_join (B V : Ledger) (bch vch : Option Nat)
    (hp : B.info.parentHash = V.info.parentHash)
    (hc : B.info.closeTime = V.info.closeTime)
    (hnb : (keysOf B.txMap).Nodup) (hnv : (keysOf V.txMap).Nodup) :
    (∀ k, k ∈ keysOf B.txMap → k ∉ keysOf V.txMap →
      LogEvent.missingTx Side.valid k (B.txRead k) ∈
        handleMismatchAnalyze B V bch vch) ∧
    (∀ k, k ∈ keysOf V.txMap → k ∉ keysOf B.txMap →
      LogEvent.missingTx Side.built k (V.txRead k) ∈
        handleMismatchAnalyze B V bch vch) ∧
    (∀ b ∈ B.txMap, ∀ v ∈ V.txMap, b.key = v.key → b.slice = v.slice →
      ∀ e ∈ handleMismatchAnalyze B V bch vch, mentionsTx b.key e = false) ∧
    (∀ b ∈ B.txMap, ∀ v ∈ V.txMap, b.key = v.key → b.slice ≠ v.slice →
      ∀ c ∈ log_metadata_difference B V b.key,
        LogEvent.metaDiff b.key c ∈ handleMismatchAnalyze B V bch vch) ∧
    (∀ k c, LogEvent.metaDiff k c ∈ handleMismatchAnalyze B V bch vch →
      k ∈ keysOf B.txMap ∧ k ∈ keysOf V.txMap) := by
  have hsb := sortByKey_sorted_lt B.txMap hnb
  have hsv := sortByKey_sorted_lt V.txMap hnv
  have hmergepath : ∀ e, e ∈ mergeDiff B V (sortByKey B.txMap)
      (sortByKey V.txMap) → e ∈ handleMismatchAnalyze B V bch vch := by
    intro e he
    rw [analyze_tx_stage B V bch vch hp hc]
    exact List.mem_cons_of_mem _ (List.mem_append_right _
      (List.mem_append_right _ he))
  refine ⟨?_, ?_, ?_, ?_, ?_⟩
  · intro k hkb hknv
    obtain ⟨b, hb, rfl⟩ := (mem_keysOf _ _).mp hkb
    have hbs : b ∈ sortByKey B.txMap := (sortByKey_mem _ _).mpr hb
    have hnk : b.key ∉ keysOf (sortByKey V.txMap) := fun h =>
      hknv ((sortByKey_keys_mem _ _).mp h)
    exact hmergepath _ (mergeDiff_missing_valid B V _ _ b hbs hnk)
  · intro k hkv hknb
    obtain ⟨v, hv, rfl⟩ := (mem_keysOf _ _).mp hkv
    have hvs : v ∈ sortByKey V.txMap := (sortByKey_mem _ _).mpr hv
    have hnk : v.key ∉ keysOf (sortByKey B.txMap) := fun h =>
      hknb ((sortByKey_keys_mem _ _).mp h)
    exact hmergepath _ (mergeDiff_missing_built B V _ _ v hvs hnk)
  · intro b hb v hv hkeq hsl e he
    rcases mem_analyze_cases B V bch vch hp hc e he with
      rfl | ⟨b0, v0, rfl | rfl⟩ | rfl | rfl | rfl | rfl | hmerge
    · rfl
    · rfl
    · rfl
    · rfl
    · rfl
    · rfl
    · rfl
    · rcases mergeDiff_sound B V _ _ hsb hsv e hmerge with
        ⟨b0, hb0, rfl, hnk⟩ | ⟨v0, hv0, rfl, hnk⟩ |
        ⟨b0, hb0, v0, hv0, hk0, hsl0, c, hcmem, rfl⟩
      · have hne : (b0.key == b.key) = false := by
          rw [beq_eq_false_iff_ne]
          intro heq2
          apply hnk
          rw [heq2]
          exact (sortByKey_keys_mem _ _).mpr
            ((mem_keysOf _ _).mpr ⟨v, hv, hkeq.symm⟩)
        simpa [log_one, mentionsTx] using hne
      · have hne : (v0.key == b.key) = false := by
          rw [beq_eq_false_iff_ne]
          intro heq2
          apply hnk
          rw [heq2]
          exact (sortByKey_keys_mem _ _).mpr
            ((mem_keysOf _ _).mpr ⟨b, hb, rfl⟩)
        simpa [log_one, mentionsTx] using hne
      · have hne : (b0.key == b.key) = false := by
          rw [beq_eq_false_iff_ne]
          intro heq2
          have hbeq : b0 = b := key_unique (sortByKey B.txMap) hsb b0 hb0 b
            ((sortByKey_mem _ _).mpr hb) heq2
          have hveq : v0 = v := key_unique (sortByKey V.txMap) hsv v0 hv0 v
            ((sortByKey_mem _ _).mpr hv) (by omega)
          rw [hbeq, hveq] at hsl0
          exact hsl0 hsl
        simpa [mentionsTx] using hne
  · intro b hb v hv hkeq hsl c hc
    exact hmergepath _ (mergeDiff_metaDiff_mem B V _ _ hsb hsv b
      ((sortByKey_mem _ _).mpr hb) v ((sortByKey_mem _ _).mpr hv)
      hkeq hsl c hc)
  · intro k c hmem
    rcases mem_analyze_cases B V bch vch hp hc _ hmem with
      h | ⟨b0, v0, h | h⟩ | h | h | h | h | hmerge
    · exact absurd h (by simp)
    · exact absurd h (by simp)
    · exact absurd h (by simp)
    · exact absurd h (by simp)
    · exact absurd h (by simp)
    · exact absurd h (by simp)
    · exact absurd h (by simp)
    · rcases mergeDiff_sound B V _ _ hsb hsv _ hmerge with
        ⟨b0, hb0, hee, hnk⟩ | ⟨v0, hv0, hee, hnk⟩ |
        ⟨b0, hb0, v0, hv0, hk0, hsl0, c0, hc0, hee⟩
      · exact absurd hee (by simp [log_one])
      · exact absurd hee (by simp [log_one])
      · obtain ⟨hkk, -⟩ : k = b0.key ∧ c = c0 := by
          have := hee
          simp [LogEvent.metaDiff.injEq] at this
          exact this
        constructor
        · rw [hkk]
          exact (sortByKey_keys_mem _ _).mp
            ((mem_keysOf _ _).mpr ⟨b0, hb0, rfl⟩)
        · rw [hkk, hk0]
          exact (sortByKey_keys_mem _ _).mp
            ((mem_keysOf _ _).mpr ⟨v0, hv0, rfl⟩)

theorem C4_witness :
    LogEvent.missingTx Side.valid 2 (c4Built.txRead 2) ∈
      handleMismatchAnalyze c4Built c4Valid none none ∧
    LogEvent.missingTx Side.built 3 (c4Valid.txRead 3) ∈
      handleMismatchAnalyze c4Built c4Valid none none ∧
    (∀ e ∈ handleMismatchAnalyze c4Built c4Valid none none,
      mentionsTx 1 e = false) := by
  have h := C4_merge_join c4Built c4Valid none none rfl rfl
    (by decide) (by decide)
  refine ⟨h.1 2 (by decide) (by decide), h.2.1 3 (by decide) (by decide), ?_⟩
  intro e he
  exact h.2.2.1 ⟨1, [5], some ⟨0, 0, []⟩⟩ (by decide)
    ⟨1, [5], some ⟨0, 0, []⟩⟩ (by decide) rfl rfl e he

end Rippled
